import Mathlib

/-!
Verification of the `mindexer` experiment harness (`experiments/utils.py`,
`experiments/evaluate.py`, `experiments/profile_workload.py`,
`experiments/workloads.py`).

Python strings are embedded as `List Char`; each Python string operation used
by the source (`str.strip`, `str.split("\n")`, `str.startswith`,
`str.endswith`) is given a structural Lean counterpart so that all
definitions evaluate inside the kernel.
-/

/-- Characters treated as whitespace by Python's `str.strip()` (the ASCII
whitespace characters: space, tab, newline, carriage return, vertical tab,
form feed). -/
def isPySpace (c : Char) : Bool :=
  c = ' ' || c = '\t' || c = '\n' || c = '\r' || c = '\x0b' || c = '\x0c'

/-- Python `s.strip()`: remove leading and trailing whitespace. -/
def pyStrip (s : List Char) : List Char :=
  ((s.dropWhile isPySpace).reverse.dropWhile isPySpace).reverse

/-- Python `s.split("\n")`: split on every newline character; the empty
string yields `[""]`, and consecutive newlines yield empty segments. -/
def splitLines : List Char → List (List Char)
  | [] => [[]]
  | c :: rest =>
    match splitLines rest, decide (c = '\n') with
    | r, true => [] :: r
    | [], false => [[c]]
    | l :: ls, false => (c :: l) :: ls

/-- Python `s.startswith(pre)`. -/
def pyStartsWith (s pre : List Char) : Bool :=
  pre.isPrefixOf s

/-- Python `s.endswith(suf)`. -/
def pyEndsWith (s suf : List Char) : Bool :=
  suf.reverse.isPrefixOf s.reverse

/-- The opening brace character, `chr 123`. -/
def lbrace : Char := Char.ofNat 123

/-- The closing brace character, `chr 125`. -/
def rbrace : Char := Char.ofNat 125

/-- The single-quote character, `chr 39`. -/
def squote : Char := Char.ofNat 39

/-- The double-quote character, `chr 34`. -/
def dquote : Char := Char.ofNat 34

/-- Python values relevant to mindexer's output: integers, strings, and
dictionaries mapping string keys to integer values (the recommended-index
descriptors). -/
inductive PyValue where
  | int : Int → PyValue
  | str : List Char → PyValue
  | dict : List (List Char × Int) → PyValue
deriving DecidableEq, Repr

/-- Read a maximal run of decimal digits. -/
def readDigits (cs : List Char) : Option (Nat × List Char) :=
  let ds := cs.takeWhile Char.isDigit
  if ds.isEmpty then none
  else some (ds.foldl (fun n c => 10 * n + (c.toNat - 48)) 0, cs.dropWhile Char.isDigit)

/-- Read a possibly negated decimal integer literal. -/
def readInt : List Char → Option (Int × List Char)
  | [] => none
  | c :: cs =>
    if c = '-' then (readDigits cs).map (fun p => (-(p.1 : Int), p.2))
    else (readDigits (c :: cs)).map (fun p => ((p.1 : Int), p.2))

/-- Read a quoted string literal (single or double quotes, no escapes). -/
def readQuoted : List Char → Option (List Char × List Char)
  | [] => none
  | c :: cs =>
    if c = squote ∨ c = dquote then
      match cs.dropWhile (fun d => ¬ d = c), cs.takeWhile (fun d => ¬ d = c) with
      | _ :: rest, content => some (content, rest)
      | [], _ => none
    else none

/-- Skip spaces inside a literal. -/
def skipSpaces (cs : List Char) : List Char :=
  cs.dropWhile (fun c => c = ' ')

/-- Read one `"key": value` entry of a dictionary literal. -/
def readEntry (cs : List Char) : Option ((List Char × Int) × List Char) :=
  match readQuoted (skipSpaces cs) with
  | none => none
  | some (k, rest) =>
    match skipSpaces rest with
    | [] => none
    | c :: rest2 =>
      if c = ':' then
        match readInt (skipSpaces rest2) with
        | some (v, rest3) => some ((k, v), rest3)
        | none => none
      else none

/-- Read a comma-separated non-empty sequence of dictionary entries; the
fuel argument bounds recursion depth. -/
def readEntries : Nat → List Char → Option (List (List Char × Int) × List Char)
  | 0, _ => none
  | fuel + 1, cs =>
    match readEntry cs with
    | none => none
    | some (e, rest) =>
      match skipSpaces rest with
      | [] => some ([e], [])
      | c :: rest2 =>
        if c = ',' then (readEntries fuel rest2).map (fun p => (e :: p.1, p.2))
        else some ([e], c :: rest2)

/-- Model of Python's `ast.literal_eval` restricted to the fragment mindexer
emits: dictionary literals with quoted string keys and integer values.  Any
other input is treated as a parse failure (`ValueError`/`SyntaxError`),
which `parse_mindexer_output` catches and skips.  `ast.literal_eval` is
library code external to this repository; this definition reproduces its
documented behaviour on this fragment. -/
def pyLiteralEval (cs : List Char) : Option PyValue :=
  match skipSpaces cs with
  | [] => none
  | c :: rest =>
    if c = lbrace then
      match skipSpaces rest with
      | [] => none
      | d :: rest2 =>
        if d = rbrace then
          if (skipSpaces rest2).isEmpty then some (.dict []) else none
        else
          match readEntries cs.length (d :: rest2) with
          | none => none
          | some (es, rem) =>
            match skipSpaces rem with
            | [] => none
            | d2 :: rem2 =>
              if d2 = rbrace ∧ (skipSpaces rem2).isEmpty then some (.dict es) else none
    else none

/-- The marker line prefix mindexer prints before its recommendations. -/
def recommendingMarker : List Char := ">> recommending".data

namespace UtilsPy

/-- The first loop of `parse_mindexer_output` in `experiments/utils.py`:
index of the first line whose stripped form starts with `">> recommending"`
(`enumerate` + `break`). -/
def findRecommendingIdx : List (List Char) → Option Nat
  | [] => none
  | l :: rest =>
    if pyStartsWith (pyStrip l) recommendingMarker then some 0
    else (findRecommendingIdx rest).map (· + 1)

/-- The second loop of `parse_mindexer_output` in `experiments/utils.py`:
strip each line, skip empties, skip lines not enclosed in braces, and keep
the successfully parsed literals. -/
def extractIndexLines (lit : List Char → Option PyValue) : List (List Char) → List PyValue
  | [] => []
  | l :: rest =>
    let line := pyStrip l
    if line.isEmpty then extractIndexLines lit rest
    else if ¬ (pyStartsWith line [lbrace] && pyEndsWith line [rbrace]) then
      extractIndexLines lit rest
    else
      match lit line with
      | some v => v :: extractIndexLines lit rest
      | none => extractIndexLines lit rest

/-- `parse_mindexer_output` from `experiments/utils.py`, parameterised by the
literal evaluator (`ast.literal_eval` in the source). -/
def parse_mindexer_output (lit : List Char → Option PyValue) (output : List Char) : List PyValue :=
  let output_lines := splitLines (pyStrip output)
  match findRecommendingIdx output_lines with
  | none => []
  | some i => extractIndexLines lit (output_lines.drop (i + 1))

end UtilsPy

example :
    UtilsPy.parse_mindexer_output pyLiteralEval
      (">> recommending indexes\n".data ++
        [lbrace, squote] ++ "a".data ++ [squote] ++ ": 1".data ++ [rbrace]) =
      [PyValue.dict [(['a'], 1)]] := by decide

example :
    UtilsPy.parse_mindexer_output pyLiteralEval "no marker here\n".data = [] := by decide

namespace EvaluatePy

/-- The first loop of `parse_mindexer_output` in `experiments/evaluate.py`
(textually identical to the copy in `utils.py`). -/
def findRecommendingIdx : List (List Char) → Option Nat
  | [] => none
  | l :: rest =>
    if pyStartsWith (pyStrip l) recommendingMarker then some 0
    else (findRecommendingIdx rest).map (· + 1)

/-- The second loop of `parse_mindexer_output` in `experiments/evaluate.py`. -/
def extractIndexLines (lit : List Char → Option PyValue) : List (List Char) → List PyValue
  | [] => []
  | l :: rest =>
    let line := pyStrip l
    if line.isEmpty then extractIndexLines lit rest
    else if ¬ (pyStartsWith line [lbrace] && pyEndsWith line [rbrace]) then
      extractIndexLines lit rest
    else
      match lit line with
      | some v => v :: extractIndexLines lit rest
      | none => extractIndexLines lit rest

/-- `parse_mindexer_output` from `experiments/evaluate.py`. -/
def parse_mindexer_output (lit : List Char → Option PyValue) (output : List Char) : List PyValue :=
  let output_lines := splitLines (pyStrip output)
  match findRecommendingIdx output_lines with
  | none => []
  | some i => extractIndexLines lit (output_lines.drop (i + 1))

end EvaluatePy

namespace ProfileWorkloadPy

/-- The first loop of `parse_mindexer_output` in
`experiments/profile_workload.py` (textually identical to the other two). -/
def findRecommendingIdx : List (List Char) → Option Nat
  | [] => none
  | l :: rest =>
    if pyStartsWith (pyStrip l) recommendingMarker then some 0
    else (findRecommendingIdx rest).map (· + 1)

/-- The second loop of `parse_mindexer_output` in
`experiments/profile_workload.py`. -/
def extractIndexLines (lit : List Char → Option PyValue) : List (List Char) → List PyValue
  | [] => []
  | l :: rest =>
    let line := pyStrip l
    if line.isEmpty then extractIndexLines lit rest
    else if ¬ (pyStartsWith line [lbrace] && pyEndsWith line [rbrace]) then
      extractIndexLines lit rest
    else
      match lit line with
      | some v => v :: extractIndexLines lit rest
      | none => extractIndexLines lit rest

/-- `parse_mindexer_output` from `experiments/profile_workload.py`. -/
def parse_mindexer_output (lit : List Char → Option PyValue) (output : List Char) : List PyValue :=
  let output_lines := splitLines (pyStrip output)
  match findRecommendingIdx output_lines with
  | none => []
  | some i => extractIndexLines lit (output_lines.drop (i + 1))

end ProfileWorkloadPy

/-! ### Specification-side restatement of the parsing contract -/

/-- A line is a marker line when, after stripping, it starts with
`">> recommending"`. -/
def isRecommendingLine (l : List Char) : Bool :=
  pyStartsWith (pyStrip l) recommendingMarker

/-- Spec-side treatment of one candidate line after the marker: its parsed
literal value when the stripped line is enclosed in braces and parses
successfully, and nothing otherwise (blank lines, lines not enclosed in
braces, and lines that fail to parse are skipped). -/
def specIndexLine (lit : List Char → Option PyValue) (l : List Char) : Option PyValue :=
  let t := pyStrip l
  if pyStartsWith t [lbrace] && pyEndsWith t [rbrace] then lit t else none

/-! ### Helper lemmas about the parsing loops -/

theorem extractIndexLines_eq_filterMap (lit : List Char → Option PyValue) :
    ∀ ls : List (List Char), UtilsPy.extractIndexLines lit ls = ls.filterMap (specIndexLine lit) := by
  intro ls
  induction ls with
  | nil => rfl
  | cons l rest ih =>
    simp only [UtilsPy.extractIndexLines, List.filterMap_cons, specIndexLine]
    by_cases hempty : (pyStrip l).isEmpty
    · have hbrace : pyStartsWith (pyStrip l) [lbrace] = false := by
        have : pyStrip l = [] := by simpa [List.isEmpty_iff] using hempty
        simp [this, pyStartsWith, List.isPrefixOf]
      simp [hempty, hbrace, ih]
    · by_cases hb : pyStartsWith (pyStrip l) [lbrace] && pyEndsWith (pyStrip l) [rbrace]
      · simp only [hempty, hb]
        simp only [Bool.not_true, if_false, if_true]
        cases hlit : lit (pyStrip l) with
        | none => simp [hlit, ih]
        | some v => simp [hlit, ih]
      · simp [hempty, hb, ih]

theorem findRecommendingIdx_eq_none (ls : List (List Char))
    (h : ∀ l ∈ ls, isRecommendingLine l = false) :
    UtilsPy.findRecommendingIdx ls = none := by
  induction ls with
  | nil => rfl
  | cons l rest ih =>
    have hl : isRecommendingLine l = false := h l (by simp)
    simp only [UtilsPy.findRecommendingIdx]
    rw [show pyStartsWith (pyStrip l) recommendingMarker = false from hl]
    simp [ih fun x hx => h x (by simp [hx])]

theorem findRecommendingIdx_eq_findIdx (ls : List (List Char))
    (h : ∃ l ∈ ls, isRecommendingLine l = true) :
    UtilsPy.findRecommendingIdx ls = some (ls.findIdx isRecommendingLine) := by
  induction ls with
  | nil => simp at h
  | cons l rest ih =>
    by_cases hl : isRecommendingLine l = true
    · simp only [UtilsPy.findRecommendingIdx]
      rw [show pyStartsWith (pyStrip l) recommendingMarker = true from hl]
      simp [List.findIdx_cons, hl]
    · have hrest : ∃ x ∈ rest, isRecommendingLine x = true := by
        rcases h with ⟨x, hx, hx2⟩
        rcases List.mem_cons.mp hx with rfl | hx'
        · exact absurd hx2 hl
        · exact ⟨x, hx', hx2⟩
      simp only [UtilsPy.findRecommendingIdx]
      rw [show pyStartsWith (pyStrip l) recommendingMarker = false from by
        simpa using hl]
      simp [ih hrest, List.findIdx_cons, Bool.eq_false_iff.mpr hl, hl]

theorem findRecommendingIdx_some_exists (ls : List (List Char)) (i : Nat)
    (h : UtilsPy.findRecommendingIdx ls = some i) :
    ∃ l ∈ ls, isRecommendingLine l = true := by
  induction ls generalizing i with
  | nil => simp [UtilsPy.findRecommendingIdx] at h
  | cons l rest ih =>
    by_cases hl : pyStartsWith (pyStrip l) recommendingMarker = true
    · exact ⟨l, by simp, hl⟩
    · simp only [UtilsPy.findRecommendingIdx] at h
      rw [if_neg hl] at h
      cases hfr : UtilsPy.findRecommendingIdx rest with
      | none => rw [hfr] at h; simp at h
      | some j =>
        rw [hfr] at h
        rcases ih j hfr with ⟨x, hx, hx2⟩
        exact ⟨x, by simp [hx], hx2⟩

theorem parse_mem_line (lit : List Char → Option PyValue) (out : List Char) (v : PyValue)
    (hv : v ∈ UtilsPy.parse_mindexer_output lit out) :
    ∃ l ∈ (splitLines (pyStrip out)).drop
        ((splitLines (pyStrip out)).findIdx isRecommendingLine + 1),
      lit (pyStrip l) = some v := by
  cases hfr : UtilsPy.findRecommendingIdx (splitLines (pyStrip out)) with
  | none =>
    simp only [UtilsPy.parse_mindexer_output, hfr] at hv
    simp at hv
  | some i =>
    have hex := findRecommendingIdx_some_exists _ _ hfr
    have heq := findRecommendingIdx_eq_findIdx _ hex
    simp only [UtilsPy.parse_mindexer_output, heq] at hv
    rw [extractIndexLines_eq_filterMap] at hv
    rcases List.mem_filterMap.mp hv with ⟨l, hl, hfl⟩
    refine ⟨l, hl, ?_⟩
    unfold specIndexLine at hfl
    by_cases hb : pyStartsWith (pyStrip l) [lbrace] && pyEndsWith (pyStrip l) [rbrace]
    · rwa [if_pos hb] at hfl
    · rw [if_neg hb] at hfl
      cases hfl

theorem pyLiteralEval_shape (cs : List Char) (v : PyValue)
    (h : pyLiteralEval cs = some v) : ∃ es : List (List Char × Int), v = PyValue.dict es := by
  unfold pyLiteralEval at h
  repeat' split at h
  all_goals (cases h) <;> exact ⟨_, rfl⟩

/-- A sample mindexer stdout: a marker line followed by the index literal
`{'a': 1}`. -/
def demoMindexerOutput : List Char :=
  ">> recommending indexes\n".data ++
    [lbrace, squote] ++ "a".data ++ [squote] ++ ": 1".data ++ [rbrace]

/-- A sample mindexer stdout containing no recommendation marker. -/
def demoNoMarkerOutput : List Char := "connected to db\nall done\n".data

/-- C1: when some line of the output, after stripping, starts with the
`">> recommending"` marker, `parse_mindexer_output` returns exactly, in
input order, the parsed literal values of those lines strictly after the
first marker line whose stripped form starts with a brace, ends with a
brace, and parses successfully; blank lines, lines not enclosed in braces,
and lines whose literal parse fails are skipped without aborting. -/
theorem parse_extracts_literals_after_marker (lit : List Char → Option PyValue)
    (out : List Char)
    (h : ∃ l ∈ splitLines (pyStrip out), isRecommendingLine l = true) :
    UtilsPy.parse_mindexer_output lit out =
      ((splitLines (pyStrip out)).drop
          ((splitLines (pyStrip out)).findIdx isRecommendingLine + 1)).filterMap
        (specIndexLine lit) := by
  simp only [UtilsPy.parse_mindexer_output, findRecommendingIdx_eq_findIdx _ h]
  exact extractIndexLines_eq_filterMap lit _

theorem parse_extracts_literals_after_marker_app :
    UtilsPy.parse_mindexer_output pyLiteralEval demoMindexerOutput =
      ((splitLines (pyStrip demoMindexerOutput)).drop
          ((splitLines (pyStrip demoMindexerOutput)).findIdx isRecommendingLine + 1)).filterMap
        (specIndexLine pyLiteralEval) :=
  parse_extracts_literals_after_marker pyLiteralEval demoMindexerOutput (by decide)

/-- C9: when no line of the input starts, after stripping, with the
`">> recommending"` marker, `parse_mindexer_output` returns the empty list;
and every value it ever returns is parsed from a line strictly after the
first marker line, so brace-delimited lines before the marker are never
included. -/
theorem parse_without_marker_empty (lit : List Char → Option PyValue) (out : List Char) :
    ((∀ l ∈ splitLines (pyStrip out), isRecommendingLine l = false) →
      UtilsPy.parse_mindexer_output lit out = []) ∧
    (∀ v ∈ UtilsPy.parse_mindexer_output lit out,
      ∃ l ∈ (splitLines (pyStrip out)).drop
          ((splitLines (pyStrip out)).findIdx isRecommendingLine + 1),
        lit (pyStrip l) = some v) := by
  constructor
  · intro hall
    simp only [UtilsPy.parse_mindexer_output, findRecommendingIdx_eq_none _ hall]
  · exact parse_mem_line lit out

theorem parse_without_marker_empty_app :
    UtilsPy.parse_mindexer_output pyLiteralEval demoNoMarkerOutput = [] ∧
    ∃ l ∈ (splitLines (pyStrip demoMindexerOutput)).drop
        ((splitLines (pyStrip demoMindexerOutput)).findIdx isRecommendingLine + 1),
      pyLiteralEval (pyStrip l) = some (PyValue.dict [(['a'], 1)]) :=
  ⟨(parse_without_marker_empty pyLiteralEval demoNoMarkerOutput).1 (by decide),
    (parse_without_marker_empty pyLiteralEval demoMindexerOutput).2
      (PyValue.dict [(['a'], 1)]) (by decide)⟩

theorem evaluatePy_find_eq (ls : List (List Char)) :
    EvaluatePy.findRecommendingIdx ls = UtilsPy.findRecommendingIdx ls := by
  induction ls with
  | nil => rfl
  | cons l rest ih =>
    simp only [EvaluatePy.findRecommendingIdx, UtilsPy.findRecommendingIdx, ih]

theorem evaluatePy_extract_eq (lit : List Char → Option PyValue) (ls : List (List Char)) :
    EvaluatePy.extractIndexLines lit ls = UtilsPy.extractIndexLines lit ls := by
  induction ls with
  | nil => rfl
  | cons l rest ih =>
    simp only [EvaluatePy.extractIndexLines, UtilsPy.extractIndexLines, ih]

theorem evaluatePy_parse_eq (lit : List Char → Option PyValue) (out : List Char) :
    EvaluatePy.parse_mindexer_output lit out = UtilsPy.parse_mindexer_output lit out := by
  simp only [EvaluatePy.parse_mindexer_output, UtilsPy.parse_mindexer_output, evaluatePy_find_eq]
  cases hf : UtilsPy.findRecommendingIdx (splitLines (pyStrip out)) with
  | none => simp [hf]
  | some i => simp [hf, evaluatePy_extract_eq]

theorem profileWorkloadPy_find_eq (ls : List (List Char)) :
    ProfileWorkloadPy.findRecommendingIdx ls = UtilsPy.findRecommendingIdx ls := by
  induction ls with
  | nil => rfl
  | cons l rest ih =>
    simp only [ProfileWorkloadPy.findRecommendingIdx, UtilsPy.findRecommendingIdx, ih]

theorem profileWorkloadPy_extract_eq (lit : List Char → Option PyValue) (ls : List (List Char)) :
    ProfileWorkloadPy.extractIndexLines lit ls = UtilsPy.extractIndexLines lit ls := by
  induction ls with
  | nil => rfl
  | cons l rest ih =>
    simp only [ProfileWorkloadPy.extractIndexLines, UtilsPy.extractIndexLines, ih]

theorem profileWorkloadPy_parse_eq (lit : List Char → Option PyValue) (out : List Char) :
    ProfileWorkloadPy.parse_mindexer_output lit out = UtilsPy.parse_mindexer_output lit out := by
  simp only [ProfileWorkloadPy.parse_mindexer_output, UtilsPy.parse_mindexer_output,
    profileWorkloadPy_find_eq]
  cases hf : UtilsPy.findRecommendingIdx (splitLines (pyStrip out)) with
  | none => simp [hf]
  | some i => simp [hf, profileWorkloadPy_extract_eq]

/-- C7: the three textually identical copies of `parse_mindexer_output` in
`utils.py`, `evaluate.py` and `profile_workload.py` are extensionally
equal: on every input they return the same list of descriptors. -/
theorem parse_copies_extensionally_equal (lit : List Char → Option PyValue) (out : List Char) :
    UtilsPy.parse_mindexer_output lit out = EvaluatePy.parse_mindexer_output lit out ∧
    EvaluatePy.parse_mindexer_output lit out = ProfileWorkloadPy.parse_mindexer_output lit out := by
  refine ⟨(evaluatePy_parse_eq lit out).symm, ?_⟩
  rw [evaluatePy_parse_eq, profileWorkloadPy_parse_eq]

/-- The sample output `">> recommending indexes\n{'': 5}"` whose single
descriptor has an empty field name and direction `5`. -/
def demoInvalidDescriptorOutput : List Char :=
  ">> recommending indexes\n".data ++ [lbrace, squote, squote] ++ ": 5".data ++ [rbrace]

/-- The invariant claimed for recommended-index descriptors: a mapping whose
field names are non-empty strings and whose directions are `+1` or `-1`. -/
def validIndexDescriptor : PyValue → Bool
  | .dict entries => entries.all fun e => !e.1.isEmpty && (e.2 == 1 || e.2 == -1)
  | _ => false

/-- C4 (counterexample): on the output `">> recommending indexes\n{'': 5}"`
the parser returns a descriptor with an empty field name and direction `5`,
so not every returned descriptor maps non-empty field names to `+1`/`-1`. -/
theorem parse_descriptor_invariant_fails :
    ¬ ∀ v ∈ UtilsPy.parse_mindexer_output pyLiteralEval demoInvalidDescriptorOutput,
        validIndexDescriptor v = true := by decide

/-- C4 (amended): every descriptor returned by `parse_mindexer_output` with
the dictionary-literal evaluator is a mapping from field-name strings to
integer directions, but the code performs no further validation: field
names may be empty and directions need not be `+1` or `-1`. -/
theorem parse_descriptors_are_mappings (out : List Char) :
    ∀ v ∈ UtilsPy.parse_mindexer_output pyLiteralEval out,
      ∃ entries : List (List Char × Int), v = PyValue.dict entries := by
  intro v hv
  rcases parse_mem_line pyLiteralEval out v hv with ⟨l, _, hl⟩
  exact pyLiteralEval_shape _ _ hl

theorem parse_descriptors_are_mappings_app :
    ∃ entries : List (List Char × Int),
      PyValue.dict [([], 5)] = PyValue.dict entries :=
  parse_descriptors_are_mappings demoInvalidDescriptorOutput (PyValue.dict [([], 5)]) (by decide)

/-! ### `create_indexes`: dict to (field, direction) pairs (utils.py / evaluate.py) -/

/-- The list comprehension in `create_indexes`
(`[(field, direction) for field, direction in index.items()]`).  A Python
dict is embedded as its insertion-ordered entry list, and `dict.items()`
enumerates the entries in that order. -/
def createIndexSpec (index : List (List Char × Int)) : List (List Char × Int) :=
  index.map fun fd => (fd.1, fd.2)

/-- Python `dict(pairs)`: build a dict by inserting the pairs left to right;
a later duplicate key overwrites the value in place. -/
def pyDictInsert (es : List (List Char × Int)) (k : List Char) (v : Int) :
    List (List Char × Int) :=
  if es.any (fun e => e.1 == k) then es.map (fun e => if e.1 == k then (k, v) else e)
  else es ++ [(k, v)]

/-- Convert a pair list back into a mapping, as `dict(pairs)` does. -/
def pyDictOfPairs (ps : List (List Char × Int)) : List (List Char × Int) :=
  ps.foldl (fun es p => pyDictInsert es p.1 p.2) []

theorem pyDictOfPairs_foldl_eq (ps : List (List Char × Int)) :
    ∀ acc : List (List Char × Int),
      (∀ p ∈ ps, ∀ e ∈ acc, ¬ e.1 = p.1) → (ps.map Prod.fst).Nodup →
      ps.foldl (fun es p => pyDictInsert es p.1 p.2) acc = acc ++ ps := by
  induction ps with
  | nil => intro acc _ _; simp
  | cons p ps ih =>
    intro acc hdisj hnd
    have hany : acc.any (fun e => e.1 == p.1) = false := by
      simp only [List.any_eq_false]
      intro e he
      simpa using hdisj p (by simp) e he
    have hins : pyDictInsert acc p.1 p.2 = acc ++ [p] := by
      simp [pyDictInsert, hany]
    have hnd' := hnd
    rw [List.map_cons, List.nodup_cons] at hnd'
    have hhead : p.1 ∉ ps.map Prod.fst := hnd'.1
    have hdisj2 : ∀ q ∈ ps, ∀ e ∈ acc ++ [p], ¬ e.1 = q.1 := by
      intro q hq e he
      rcases List.mem_append.mp he with he' | he'
      · exact hdisj q (by simp [hq]) e he'
      · have : e = p := by simpa using he'
        subst this
        intro hcontra
        exact hhead (hcontra ▸ List.mem_map_of_mem Prod.fst hq)
    have hnd2 : (ps.map Prod.fst).Nodup := hnd'.2
    calc (p :: ps).foldl (fun es q => pyDictInsert es q.1 q.2) acc
        = ps.foldl (fun es q => pyDictInsert es q.1 q.2) (acc ++ [p]) := by
          simp [List.foldl_cons, hins]
      _ = (acc ++ [p]) ++ ps := ih (acc ++ [p]) hdisj2 hnd2
      _ = acc ++ (p :: ps) := by simp

/-- C3: the conversion `create_indexes` performs from a recommended-index
dictionary to a list of `(field, direction)` pairs is a lossless
round-trip: rebuilding a mapping from the pair list yields the original
dictionary with the same fields in the same order, and the pair list itself
is the entry list with no pair dropped or duplicated. -/
theorem create_indexes_roundtrip (index : List (List Char × Int))
    (h : (index.map Prod.fst).Nodup) :
    pyDictOfPairs (createIndexSpec index) = index ∧ createIndexSpec index = index := by
  have hspec : createIndexSpec index = index := by
    simp [createIndexSpec]
  refine ⟨?_, hspec⟩
  rw [hspec]
  simpa using pyDictOfPairs_foldl_eq index [] (by simp) h

theorem create_indexes_roundtrip_app :
    pyDictOfPairs (createIndexSpec [("a".data, 1), ("b".data, -1)]) =
        [("a".data, 1), ("b".data, -1)] ∧
      createIndexSpec [("a".data, 1), ("b".data, -1)] = [("a".data, 1), ("b".data, -1)] :=
  create_indexes_roundtrip [("a".data, 1), ("b".data, -1)] (by decide)

/-! ### Summary statistics (the final block of `main` in `evaluate.py`)

Timing samples are embedded as exact rationals.  `np.mean` and `np.std`
are external library calls; they are modelled by their documented
semantics (arithmetic mean, and square root of the population variance,
`ddof=0`), with the square root kept as an uninterpreted parameter so that
statements relate code and specification under any square-root function. -/

/-- `np.mean`: the arithmetic mean. -/
def npMean (xs : List ℚ) : ℚ := xs.sum / xs.length

/-- `np.std` (default `ddof=0`): square root of the population variance. -/
def npStd (sq : ℚ → ℚ) (xs : List ℚ) : ℚ :=
  sq ((xs.map fun x => (x - npMean xs) ^ 2).sum / xs.length)

/-- Python `list.sort()`: sort ascending. -/
def pySort (xs : List ℚ) : List ℚ := List.insertionSort (· ≤ ·) xs

/-- Python slice `xs[1:-1]`: all elements but the first and the last. -/
def pySlice1ToNeg1 (xs : List ℚ) : List ℚ := (xs.drop 1).dropLast

/-- Python `min(xs)` (`0` as an unused default for the empty list). -/
def pyMin : List ℚ → ℚ
  | [] => 0
  | a :: t => t.foldl min a

/-- Python `max(xs)` (`0` as an unused default for the empty list). -/
def pyMax : List ℚ → ℚ
  | [] => 0
  | a :: t => t.foldl max a

/-- The four statistics logged at the end of `main`. -/
structure StatsSummary where
  meanNoIndexes : ℚ
  stddevNoIndexes : ℚ
  meanWithIndexes : ℚ
  stddevWithIndexes : ℚ
deriving DecidableEq, Repr

/-- The `calculate statistics` block of `main` in `evaluate.py`: when
`discard_best_worst` is set and `num_runs >= 3`, both sample lists are
sorted in place and sliced with `[1:-1]`; then means and standard
deviations are taken with numpy. -/
def calcSummaryStats (sq : ℚ → ℚ) (discardBestWorst : Bool) (numRuns : Int)
    (execTimesNoIndexes execTimesWithIndexes : List ℚ) : StatsSummary :=
  let p :=
    if discardBestWorst then
      if numRuns < 3 then (execTimesNoIndexes, execTimesWithIndexes)
      else (pySlice1ToNeg1 (pySort execTimesNoIndexes),
            pySlice1ToNeg1 (pySort execTimesWithIndexes))
    else (execTimesNoIndexes, execTimesWithIndexes)
  { meanNoIndexes := npMean p.1
    stddevNoIndexes := npStd sq p.1
    meanWithIndexes := npMean p.2
    stddevWithIndexes := npStd sq p.2 }

/-- Spec-side arithmetic mean. -/
def specArithMean (xs : List ℚ) : ℚ := xs.sum / xs.length

/-- Spec-side population standard deviation, under the same uninterpreted
square root. -/
def specPopStd (sq : ℚ → ℚ) (xs : List ℚ) : ℚ :=
  sq ((xs.map fun x => (x - specArithMean xs) ^ 2).sum / xs.length)

/-- Spec-side sample list: when the `discard_best_worst` option is set and
there are at least 3 runs, the sorted sample list with the single minimum
and the single maximum sample removed; in every other case all samples
unchanged. -/
def specSamples (discardBestWorst : Bool) (numRuns : Int) (xs : List ℚ) : List ℚ :=
  if discardBestWorst = true ∧ 3 ≤ numRuns then
    ((pySort xs).erase (pyMin (pySort xs))).erase (pyMax (pySort xs))
  else xs

theorem foldl_min_sorted (t : List ℚ) :
    ∀ a : ℚ, List.Pairwise (· ≤ ·) (a :: t) → t.foldl min a = a := by
  induction t with
  | nil => intro a _; rfl
  | cons c t ih =>
    intro a h
    rcases List.pairwise_cons.mp h with ⟨hle, hct⟩
    have hac : a ≤ c := hle c (by simp)
    have h2 : List.Pairwise (· ≤ ·) (a :: t) :=
      List.pairwise_cons.mpr ⟨fun x hx => hle x (by simp [hx]), (List.pairwise_cons.mp hct).2⟩
    simp only [List.foldl_cons]
    rw [min_eq_left hac]
    exact ih a h2

theorem foldl_max_sorted (t : List ℚ) :
    ∀ a : ℚ, List.Pairwise (· ≤ ·) (a :: t) → t.foldl max a = (a :: t).getLast (by simp) := by
  induction t with
  | nil => intro a _; rfl
  | cons c t ih =>
    intro a h
    rcases List.pairwise_cons.mp h with ⟨hle, hct⟩
    have hac : a ≤ c := hle c (by simp)
    simp only [List.foldl_cons]
    rw [max_eq_right hac, ih c hct]
    exact (List.getLast_cons (by simp)).symm

theorem sorted_le_getLast (s : List ℚ) :
    List.Pairwise (· ≤ ·) s → ∀ (h : s ≠ []) (x : ℚ), x ∈ s → x ≤ s.getLast h := by
  induction s with
  | nil => intro _ h; cases h rfl
  | cons a t ih =>
    intro hs h x hx
    rcases List.pairwise_cons.mp hs with ⟨hle, ht⟩
    cases t with
    | nil =>
      have : x = a := by simpa using hx
      simp [this]
    | cons b t' =>
      rw [List.getLast_cons (by simp)]
      rcases List.mem_cons.mp hx with rfl | hx'
      · exact hle _ (List.getLast_mem _)
      · exact ih ht (by simp) x hx'

theorem erase_getLast_sorted (s : List ℚ) :
    List.Pairwise (· ≤ ·) s → ∀ h : s ≠ [], s.erase (s.getLast h) = s.dropLast := by
  induction s with
  | nil => intro _ h; cases h rfl
  | cons a t ih =>
    intro hs h
    cases t with
    | nil => simp
    | cons b t' =>
      have hbt : (b :: t') ≠ [] := by simp
      rcases List.pairwise_cons.mp hs with ⟨hle, ht⟩
      rw [List.getLast_cons hbt]
      by_cases hab : a = (b :: t').getLast hbt
      · have hall : ∀ x ∈ b :: t', x = a := by
          intro x hx
          exact le_antisymm (hab ▸ sorted_le_getLast _ ht hbt x hx) (hle x hx)
        have hrep : b :: t' = List.replicate (b :: t').length a :=
          List.eq_replicate_of_mem hall
        rw [← hab, List.erase_cons_head]
        have hlen : (b :: t').length = t'.length + 1 := by simp
        conv_lhs => rw [hrep, hlen, List.replicate_succ']
        conv_rhs => rw [hrep, hlen, List.replicate_succ']
        rw [show a :: (List.replicate t'.length a ++ [a]) =
              (a :: List.replicate t'.length a) ++ [a] by simp]
        rw [List.dropLast_concat]
        rw [← List.replicate_succ', List.replicate_succ]
      · have herase : (a :: b :: t').erase ((b :: t').getLast hbt) =
            a :: (b :: t').erase ((b :: t').getLast hbt) :=
          List.erase_cons_tail (by simpa using hab)
        rw [herase, ih ht hbt]
        rfl

theorem specTrim_eq_slice (xs : List ℚ) (h3 : 3 ≤ xs.length) :
    ((pySort xs).erase (pyMin (pySort xs))).erase (pyMax (pySort xs)) =
      pySlice1ToNeg1 (pySort xs) := by
  have hsorted : List.Pairwise (· ≤ ·) (pySort xs) :=
    List.sorted_insertionSort (· ≤ ·) xs
  have hlen : (pySort xs).length = xs.length :=
    (List.perm_insertionSort (· ≤ ·) xs).length_eq
  cases hs : pySort xs with
  | nil =>
    rw [hs] at hlen
    simp at hlen
    omega
  | cons a t =>
    rw [hs] at hsorted hlen
    have ht_ne : t ≠ [] := by
      cases t with
      | nil => simp at hlen; omega
      | cons _ _ => simp
    have hmin : pyMin (a :: t) = a := foldl_min_sorted t a hsorted
    have hmax : pyMax (a :: t) = (a :: t).getLast (by simp) := foldl_max_sorted t a hsorted
    rw [hmin, List.erase_cons_head, hmax, List.getLast_cons ht_ne,
      erase_getLast_sorted t (List.pairwise_cons.mp hsorted).2 ht_ne]
    simp [pySlice1ToNeg1]

/-- C2: the mean and standard deviation logged by `main` equal the
arithmetic mean and the population standard deviation of the sample list;
when `discard_best_worst` is set and `num_runs` is at least 3 the sample
list is the sorted list of the collected run times with the single minimum
and single maximum removed, and in every other case it is all samples
unchanged.  The two hypotheses record that each phase of `main` collects
exactly `num_runs` samples. -/
theorem summary_stats_match (sq : ℚ → ℚ) (discardBestWorst : Bool) (numRuns : Int)
    (noIdx withIdx : List ℚ)
    (hn : noIdx.length = numRuns.toNat) (hw : withIdx.length = numRuns.toNat) :
    calcSummaryStats sq discardBestWorst numRuns noIdx withIdx =
      { meanNoIndexes := specArithMean (specSamples discardBestWorst numRuns noIdx)
        stddevNoIndexes := specPopStd sq (specSamples discardBestWorst numRuns noIdx)
        meanWithIndexes := specArithMean (specSamples discardBestWorst numRuns withIdx)
        stddevWithIndexes := specPopStd sq (specSamples discardBestWorst numRuns withIdx) } := by
  have key : ∀ xs : List ℚ, xs.length = numRuns.toNat →
      specSamples discardBestWorst numRuns xs =
        (if discardBestWorst then
          if numRuns < 3 then xs else pySlice1ToNeg1 (pySort xs)
        else xs) := by
    intro xs hxs
    by_cases hd : discardBestWorst = true
    · by_cases h3 : numRuns < 3
      · have hcond : ¬ (discardBestWorst = true ∧ 3 ≤ numRuns) := by
          rintro ⟨_, h⟩; omega
        simp [specSamples, hcond, hd, h3]
      · have h3' : 3 ≤ numRuns := by omega
        have hlen3 : 3 ≤ xs.length := by rw [hxs]; omega
        simp [specSamples, hd, h3', h3, specTrim_eq_slice xs hlen3]
    · have hd' : discardBestWorst = false := by
        cases discardBestWorst <;> simp_all
      simp [specSamples, hd']
  rw [key noIdx hn, key withIdx hw]
  have hms : npMean = specArithMean := rfl
  have hstd : npStd = specPopStd := by
    funext s xs
    simp [npStd, specPopStd, hms]
  unfold calcSummaryStats
  rw [hms, hstd]
  by_cases hd : discardBestWorst = true
  · by_cases h3 : numRuns < 3 <;> simp [hd, h3]
  · have hd' : discardBestWorst = false := by
      cases discardBestWorst <;> simp_all
    simp [hd']

theorem summary_stats_match_app :
    calcSummaryStats id true 3 [3, 1, 2] [5, 4, 6] =
      { meanNoIndexes := specArithMean (specSamples true 3 [3, 1, 2])
        stddevNoIndexes := specPopStd id (specSamples true 3 [3, 1, 2])
        meanWithIndexes := specArithMean (specSamples true 3 [5, 4, 6])
        stddevWithIndexes := specPopStd id (specSamples true 3 [5, 4, 6]) } :=
  summary_stats_match id true 3 [3, 1, 2] [5, 4, 6] (by decide) (by decide)

/-! ### MongoDB profiling state and `enable_profiling` (utils.py / evaluate.py) -/

/-- The slice of MongoDB state that `enable_profiling` touches: the
collection names of one database, and the current profiling setting
(`none` for level 0, `some (slowms, namespace-filter)` for level 1). -/
structure MongoDbState where
  collections : List (List Char)
  profiling : Option (Int × List Char)
deriving DecidableEq, Repr

/-- `db.drop_collection(name)`. -/
def dropCollection (st : MongoDbState) (name : List Char) : MongoDbState :=
  { st with collections := st.collections.filter (fun c => !(c == name)) }

/-- The namespace string `f"{db_name}.{collection_name}"`. -/
def nsString (dbName collName : List Char) : List Char := dbName ++ '.' :: collName

/-- The collection name `"system.profile"`. -/
def sysProfileName : List Char := "system.profile".data

/-- `enable_profiling` from `utils.py` (with an identical copy in
`evaluate.py`): set profiling level 0, raise `ValidationError` when the
workload's collection is not among the database's collection names, drop
`system.profile` if present, then enable level-1 profiling filtered to the
workload's namespace. -/
def enable_profiling (st : MongoDbState) (dbName collName : List Char) (slowms : Int) :
    Except (List Char) MongoDbState :=
  let st1 : MongoDbState := { st with profiling := none }
  if ¬ collName ∈ st1.collections then
    .error ("Collection ".data ++ [squote] ++ collName ++ [squote] ++
      " does not exist in database ".data ++ [squote] ++ dbName ++ [squote] ++ ".".data)
  else
    let st2 := if sysProfileName ∈ st1.collections then dropCollection st1 sysProfileName else st1
    .ok { st2 with profiling := some (slowms, nsString dbName collName) }

/-! ### Workloads (workloads.py) and the control flow of `main` (evaluate.py) -/

/-- A workload: a database name and a collection name (the lifecycle hooks
carry no data). -/
structure BaseWorkload where
  db_name : List Char
  collection_name : List Char
deriving DecidableEq, Repr

/-- `EmberWorkload`. -/
def emberWorkload : BaseWorkload := ⟨"ember2018".data, "ember_train".data⟩

/-- `LinkbenchWorkload`. -/
def linkbenchWorkload : BaseWorkload := ⟨"linkbench".data, "linktable".data⟩

/-- `TestWorkload`. -/
def testWorkload : BaseWorkload := ⟨"ember2018".data, "ember_test".data⟩

/-- The `ValueError` message of `get_workload` for an unknown name. -/
def unknownWorkloadMsg (name : List Char) : List Char :=
  "Unknown workload: ".data ++ name ++ ". Available workloads: [".data ++
    [squote] ++ "ember".data ++ [squote] ++ ", ".data ++
    [squote] ++ "linkbench".data ++ [squote] ++ ", ".data ++
    [squote] ++ "test".data ++ [squote] ++ "]".data

/-- `get_workload` from `workloads.py`: look the name up among the known
workloads, raising `ValueError` otherwise. -/
def get_workload (workload_name : List Char) : Except (List Char) BaseWorkload :=
  if workload_name = "ember".data then .ok emberWorkload
  else if workload_name = "linkbench".data then .ok linkbenchWorkload
  else if workload_name = "test".data then .ok testWorkload
  else .error (unknownWorkloadMsg workload_name)

/-- The configuration parameters `main` reads (`uri` is opaque to the
control flow and omitted). -/
structure ExpConfig where
  workloadName : List Char
  slowms : Int
  numRuns : Int
  discardBestWorst : Bool

/-- The environment `main` interacts with: the state of each database by
name, and the stdout of the external mindexer subprocess. -/
structure ExpEnv where
  dbStates : List Char → MongoDbState
  mindexerStdout : List Char

/-- The observable steps of `main`, in the order its code performs them. -/
inductive ExpEvent where
  | enabledProfiling
  | setupHook
  | profiledWorkloadExec
  | cleanupHook
  | disabledProfiling
  | ranMindexer
  | droppedIndexes
  | warmupNoIndexes
  | timedRunNoIndexes
  | createdIndexes
  | warmupWithIndexes
  | timedRunWithIndexes
  | computedStats
deriving DecidableEq, Repr

/-- The exception types `main` can raise (from the experiment-tracking
library). -/
inductive ExpError where
  | validationError (msg : List Char)
  | experimentError (msg : List Char)
deriving DecidableEq, Repr

/-- `main` from `evaluate.py` as a trace of events together with the
exception, if any, that propagates out.  Workload executions and database
calls other than `enable_profiling` always succeed in the model (their
exceptions are simply re-raised by `main`, adding no control flow);
numeric run times are irrelevant to the control flow and omitted, the
summary-statistics computation being modelled separately by
`calcSummaryStats`. -/
def mainRun (cfg : ExpConfig) (env : ExpEnv) : List ExpEvent × Option ExpError :=
  if cfg.numRuns ≤ 0 then ([], some (.validationError "num_runs must be positive".data))
  else if cfg.workloadName = [] then
    ([], some (.validationError "Workload configuration is missing.".data))
  else
    match get_workload cfg.workloadName with
    | .error e => ([], some (.validationError e))
    | .ok w =>
      match enable_profiling (env.dbStates w.db_name) w.db_name w.collection_name cfg.slowms with
      | .error e => ([], some (.validationError e))
      | .ok _ =>
        let preTrace : List ExpEvent :=
          [.enabledProfiling, .setupHook, .profiledWorkloadExec, .cleanupHook,
            .disabledProfiling, .ranMindexer, .droppedIndexes, .warmupNoIndexes] ++
          List.replicate cfg.numRuns.toNat .timedRunNoIndexes
        if EvaluatePy.parse_mindexer_output pyLiteralEval env.mindexerStdout = [] then
          (preTrace, some (.experimentError "No recommended indexes found from mindexer.".data))
        else
          (preTrace ++ [.createdIndexes, .warmupWithIndexes] ++
            List.replicate cfg.numRuns.toNat .timedRunWithIndexes ++ [.computedStats], none)

theorem enable_profiling_ok (st : MongoDbState) (dbName collName : List Char) (slowms : Int)
    (h : collName ∈ st.collections) :
    ∃ st', enable_profiling st dbName collName slowms = .ok st' := by
  unfold enable_profiling
  rw [if_neg (by simpa using h)]
  exact ⟨_, rfl⟩

/-- C6: `enable_profiling` raises a `ValidationError` if and only if the
workload's collection name is not among the collection names of the
workload's database; when the collection exists no error is raised and
level-1 profiling is enabled for the workload's namespace; and in `main`
the error propagates upward, aborting the run. -/
theorem enable_profiling_validation (st : MongoDbState) (w : BaseWorkload) (slowms : Int) :
    ((∃ e, enable_profiling st w.db_name w.collection_name slowms = .error e) ↔
      w.collection_name ∉ st.collections) ∧
    (∀ st', enable_profiling st w.db_name w.collection_name slowms = .ok st' →
      st'.profiling = some (slowms, nsString w.db_name w.collection_name)) ∧
    (∀ cfg env e, 0 < cfg.numRuns → cfg.workloadName ≠ [] →
      get_workload cfg.workloadName = .ok w →
      enable_profiling (env.dbStates w.db_name) w.db_name w.collection_name cfg.slowms =
        .error e →
      mainRun cfg env = ([], some (.validationError e))) := by
  refine ⟨⟨?_, ?_⟩, ?_, ?_⟩
  · rintro ⟨e, he⟩
    by_cases hmem : w.collection_name ∈ st.collections
    · rcases enable_profiling_ok st w.db_name w.collection_name slowms hmem with ⟨st', hok⟩
      rw [hok] at he
      cases he
    · exact hmem
  · intro hmem
    unfold enable_profiling
    rw [if_pos (by simpa using hmem)]
    exact ⟨_, rfl⟩
  · intro st' hok
    unfold enable_profiling at hok
    by_cases hmem : w.collection_name ∈ st.collections
    · rw [if_neg (by simpa using hmem)] at hok
      cases hok
      rfl
    · rw [if_pos (by simpa using hmem)] at hok
      cases hok
  · intro cfg env e h1 h2 hgw hep
    unfold mainRun
    rw [if_neg (by omega), if_neg h2, hgw]
    simp [hep]

theorem enable_profiling_validation_app :
    ((∃ e, enable_profiling ⟨["ember_test".data], none⟩ testWorkload.db_name
        testWorkload.collection_name 100 = .error e) ↔
      testWorkload.collection_name ∉ [("ember_test".data)]) ∧
    (∀ st', enable_profiling ⟨["ember_test".data], none⟩ testWorkload.db_name
        testWorkload.collection_name 100 = .ok st' →
      st'.profiling = some (100, nsString testWorkload.db_name testWorkload.collection_name)) :=
  ⟨(enable_profiling_validation ⟨["ember_test".data], none⟩ testWorkload 100).1,
    (enable_profiling_validation ⟨["ember_test".data], none⟩ testWorkload 100).2.1⟩

/-- C5: when the parsed mindexer output contains zero recommended indexes,
`main` raises `ExperimentError` (after the without-indexes phase), the
error propagates out with no retry, and no index is ever created. -/
theorem main_aborts_on_zero_recommendations (cfg : ExpConfig) (env : ExpEnv) (w : BaseWorkload)
    (h1 : 0 < cfg.numRuns) (h2 : cfg.workloadName ≠ [])
    (h3 : get_workload cfg.workloadName = .ok w)
    (h4 : w.collection_name ∈ (env.dbStates w.db_name).collections)
    (h5 : EvaluatePy.parse_mindexer_output pyLiteralEval env.mindexerStdout = []) :
    (mainRun cfg env).2 =
      some (.experimentError "No recommended indexes found from mindexer.".data) ∧
    ExpEvent.createdIndexes ∉ (mainRun cfg env).1 := by
  rcases enable_profiling_ok (env.dbStates w.db_name) w.db_name w.collection_name
      cfg.slowms h4 with ⟨st', hok⟩
  unfold mainRun
  rw [if_neg (by omega), if_neg h2, h3]
  simp [hok, h5, List.mem_replicate]

/-- A sample configuration running the `test` workload once. -/
def demoConfig : ExpConfig :=
  { workloadName := "test".data, slowms := 100, numRuns := 1, discardBestWorst := false }

/-- A sample environment in which every database contains exactly the
`ember_test` collection. -/
def demoDbStates : List Char → MongoDbState :=
  fun _ => { collections := ["ember_test".data], profiling := none }

theorem main_aborts_on_zero_recommendations_app :
    (mainRun demoConfig ⟨demoDbStates, demoNoMarkerOutput⟩).2 =
      some (.experimentError "No recommended indexes found from mindexer.".data) ∧
    ExpEvent.createdIndexes ∉ (mainRun demoConfig ⟨demoDbStates, demoNoMarkerOutput⟩).1 :=
  main_aborts_on_zero_recommendations demoConfig ⟨demoDbStates, demoNoMarkerOutput⟩
    testWorkload (by decide) (by decide) (by rfl) (by decide) (by decide)

/-- The phase number of each event: the phases of a complete run in the
order `main` performs them. -/
def phaseOf : ExpEvent → Nat
  | .enabledProfiling => 0
  | .setupHook => 1
  | .profiledWorkloadExec => 2
  | .cleanupHook => 3
  | .disabledProfiling => 4
  | .ranMindexer => 5
  | .droppedIndexes => 6
  | .warmupNoIndexes => 7
  | .timedRunNoIndexes => 8
  | .createdIndexes => 9
  | .warmupWithIndexes => 10
  | .timedRunWithIndexes => 11
  | .computedStats => 12

/-- The event trace of a complete run with `n` timed runs per phase. -/
def mainTraceShape (n : Nat) : List ExpEvent :=
  [.enabledProfiling, .setupHook, .profiledWorkloadExec, .cleanupHook,
    .disabledProfiling, .ranMindexer, .droppedIndexes, .warmupNoIndexes] ++
  List.replicate n .timedRunNoIndexes ++
  [.createdIndexes, .warmupWithIndexes] ++
  List.replicate n .timedRunWithIndexes ++ [.computedStats]

theorem mainRun_success_trace (cfg : ExpConfig) (env : ExpEnv)
    (h : (mainRun cfg env).2 = none) :
    0 < cfg.numRuns ∧ (mainRun cfg env).1 = mainTraceShape cfg.numRuns.toNat := by
  by_cases h1 : cfg.numRuns ≤ 0
  · simp [mainRun, h1] at h
  · by_cases h2 : cfg.workloadName = []
    · simp [mainRun, h1, h2] at h
    · cases hgw : get_workload cfg.workloadName with
      | error e => simp [mainRun, h1, h2, hgw] at h
      | ok w =>
        cases hep : enable_profiling (env.dbStates w.db_name) w.db_name
            w.collection_name cfg.slowms with
        | error e => simp [mainRun, h1, h2, hgw, hep] at h
        | ok st' =>
          by_cases hparse :
              EvaluatePy.parse_mindexer_output pyLiteralEval env.mindexerStdout = []
          · simp [mainRun, h1, h2, hgw, hep, hparse] at h
          · refine ⟨by omega, ?_⟩
            simp [mainRun, h1, h2, hgw, hep, hparse, mainTraceShape]

/-- C8: in every complete run of `main` the phases occur in the stated
order: profiling is enabled before the workload is executed, profiling is
disabled after workload execution, mindexer is invoked only after
profiling is disabled, all indexes are dropped before the without-indexes
timed runs, the recommended indexes are created before the with-indexes
timed runs, and the summary statistics are computed last — every event of
the trace occurs at a phase number no later than all events after it, and
each phase occurs. -/
theorem main_phase_order (cfg : ExpConfig) (env : ExpEnv)
    (h : (mainRun cfg env).2 = none) :
    List.Pairwise (fun a b => phaseOf a ≤ phaseOf b) (mainRun cfg env).1 ∧
    ExpEvent.enabledProfiling ∈ (mainRun cfg env).1 ∧
    ExpEvent.profiledWorkloadExec ∈ (mainRun cfg env).1 ∧
    ExpEvent.disabledProfiling ∈ (mainRun cfg env).1 ∧
    ExpEvent.ranMindexer ∈ (mainRun cfg env).1 ∧
    ExpEvent.droppedIndexes ∈ (mainRun cfg env).1 ∧
    ExpEvent.timedRunNoIndexes ∈ (mainRun cfg env).1 ∧
    ExpEvent.createdIndexes ∈ (mainRun cfg env).1 ∧
    ExpEvent.timedRunWithIndexes ∈ (mainRun cfg env).1 ∧
    ExpEvent.computedStats ∈ (mainRun cfg env).1 := by
  rcases mainRun_success_trace cfg env h with ⟨hpos, htr⟩
  rw [htr]
  have hn : cfg.numRuns.toNat ≠ 0 := by omega
  constructor
  · rw [show (fun a b => phaseOf a ≤ phaseOf b) =
        (fun a b => (· ≤ ·) (phaseOf a) (phaseOf b)) from rfl]
    rw [← List.pairwise_map]
    simp only [mainTraceShape, List.map_append, List.map_replicate, List.map_cons,
      List.map_nil, phaseOf, List.append_assoc]
    refine List.pairwise_append.mpr ⟨by decide, ?_, ?_⟩
    · refine List.pairwise_append.mpr
        ⟨List.pairwise_replicate.mpr (Or.inr le_rfl), ?_, ?_⟩
      · refine List.pairwise_append.mpr ⟨by decide, ?_, ?_⟩
        · refine List.pairwise_append.mpr
            ⟨List.pairwise_replicate.mpr (Or.inr le_rfl), by decide, ?_⟩
          intro a ha b hb
          simp [List.mem_replicate] at ha hb
          omega
        · intro a ha b hb
          simp [List.mem_replicate, List.mem_append] at ha hb
          omega
      · intro a ha b hb
        simp [List.mem_replicate, List.mem_append] at ha hb
        omega
    · intro a ha b hb
      simp [List.mem_replicate, List.mem_append] at ha hb
      omega
  · simp [mainTraceShape, List.mem_append, List.mem_replicate, hn]

theorem main_phase_order_app :
    List.Pairwise (fun a b => phaseOf a ≤ phaseOf b)
      (mainRun demoConfig ⟨demoDbStates, demoMindexerOutput⟩).1 ∧
    ExpEvent.enabledProfiling ∈ (mainRun demoConfig ⟨demoDbStates, demoMindexerOutput⟩).1 ∧
    ExpEvent.profiledWorkloadExec ∈ (mainRun demoConfig ⟨demoDbStates, demoMindexerOutput⟩).1 ∧
    ExpEvent.disabledProfiling ∈ (mainRun demoConfig ⟨demoDbStates, demoMindexerOutput⟩).1 ∧
    ExpEvent.ranMindexer ∈ (mainRun demoConfig ⟨demoDbStates, demoMindexerOutput⟩).1 ∧
    ExpEvent.droppedIndexes ∈ (mainRun demoConfig ⟨demoDbStates, demoMindexerOutput⟩).1 ∧
    ExpEvent.timedRunNoIndexes ∈ (mainRun demoConfig ⟨demoDbStates, demoMindexerOutput⟩).1 ∧
    ExpEvent.createdIndexes ∈ (mainRun demoConfig ⟨demoDbStates, demoMindexerOutput⟩).1 ∧
    ExpEvent.timedRunWithIndexes ∈ (mainRun demoConfig ⟨demoDbStates, demoMindexerOutput⟩).1 ∧
    ExpEvent.computedStats ∈ (mainRun demoConfig ⟨demoDbStates, demoMindexerOutput⟩).1 :=
  main_phase_order demoConfig ⟨demoDbStates, demoMindexerOutput⟩ (by decide)

/-! ### `validate_workload` (profile_workload.py) -/

/-- `validate_workload` from `profile_workload.py`. Its `workload` argument
is immediately shadowed by re-reading the stored `"workload"` experiment
parameter (`yanex.get_param("workload")`, `none` when unset), so the value
passed in is never consulted. -/
def validate_workload (workload : List Char) (storedWorkloadParam : Option (List Char)) :
    Except (List Char) Unit :=
  match storedWorkloadParam with
  | none => .error "Workload configuration is missing.".data
  | some w =>
    if w = [] then .error "Workload configuration is missing.".data
    else if ¬ (w = "linkbench".data ∨ w = "ember".data ∨ w = "test".data) then
      .error ("Unsupported workload: ".data ++ w ++
        ". Supported workloads are: linkbench, ember, test.".data)
    else .ok ()

/-- C10: `validate_workload` is independent of its argument: for any two
argument strings and the same stored `"workload"` parameter it performs
the same action, accepting or raising the same `ValidationError`. -/
theorem validate_workload_ignores_argument (a b : List Char)
    (stored : Option (List Char)) :
    validate_workload a stored = validate_workload b stored := rfl
